import Mathlib

/-!
Verification development for the casino_project repository.

Python `Decimal` values are embedded as exact rationals (`ℚ`); `Decimal`
operations on the magnitudes appearing here are exact in that embedding.
`quantize(Decimal('0.01'), rounding=ROUND_DOWN)` on the non-negative values
reaching it is floor to hundredths; the default-rounding `quantize` of the
Mines service is round-half-even to hundredths.  HMAC-SHA256 digests are
embedded abstractly: game logic is parametrised by the integer draw the
digest produces, and theorems quantify over all such draws.
-/

/-- Floor to two decimal places (Python `quantize('0.01', ROUND_DOWN)` on
non-negative values). -/
def floor2 (q : ℚ) : ℚ := (⌊q * 100⌋ : ℚ) / 100

theorem floor2_mono {a b : ℚ} (h : a ≤ b) : floor2 a ≤ floor2 b := by
  unfold floor2
  have h : (⌊a * 100⌋ : ℤ) ≤ ⌊b * 100⌋ := Int.floor_le_floor (by linarith)
  have h' : (⌊a * 100⌋ : ℚ) ≤ (⌊b * 100⌋ : ℚ) := by exact_mod_cast h
  linarith

theorem floor2_le (q : ℚ) : floor2 q ≤ q := by
  unfold floor2
  have := Int.floor_le (q * 100)
  linarith

theorem floor2_hundredths (n : ℤ) : floor2 ((n : ℚ) / 100) = (n : ℚ) / 100 := by
  unfold floor2
  rw [div_mul_cancel₀]
  · simp
  · norm_num

namespace CrashGameService

/-- 3% house edge constant `HOUSE_EDGE`. -/
def HOUSE_EDGE : ℚ := 3

/-- `MIN_CRASH_POINT`. -/
def MIN_CRASH_POINT : ℚ := 1

/-- `MAX_CRASH_POINT`. -/
def MAX_CRASH_POINT : ℚ := 10000

/-- `CrashGameService.calculate_crash_point`, embedded from the source.
`hash_int` is the big-endian integer of the first 8 bytes of
HMAC-SHA256(key = server seed, message = client seed); the function is
deterministic downstream of that value. -/
def calculate_crash_point (hash_int : ℕ) : ℚ :=
  let max_int : ℕ := 18446744073709551615
  let random_value : ℚ := (hash_int : ℚ) / (max_int : ℚ)
  let random_value : ℚ := if random_value = 0 then 1 / 1000000 else random_value
  let crash_point : ℚ := (100 / (100 - HOUSE_EDGE)) / random_value
  let crash_point : ℚ := if crash_point < MIN_CRASH_POINT then MIN_CRASH_POINT else crash_point
  let crash_point : ℚ := if crash_point > MAX_CRASH_POINT then MAX_CRASH_POINT else crash_point
  floor2 crash_point

/-- The crash-point formula exactly as the specification words it: normalize
the 8-byte draw by 2^64 − 1, substitute 1e-6 for a zero value, take
floor-to-2-decimals of (100/(100−3))/r, and clamp the result to
[1.00, 10000.00]. -/
def crash_point_spec (hash_int : ℕ) : ℚ :=
  let r : ℚ := (hash_int : ℚ) / (2 ^ 64 - 1)
  let r : ℚ := if r = 0 then 1 / 1000000 else r
  min 10000 (max 1 (floor2 ((100 / (100 - 3)) / r)))

end CrashGameService

theorem floor2_clamp (x : ℚ) :
    floor2 (if (if x < 1 then (1:ℚ) else x) > 10000 then (10000:ℚ)
            else if x < 1 then (1:ℚ) else x)
      = min 10000 (max 1 (floor2 x)) := by
  have h1 : floor2 (1:ℚ) = 1 := by
    have := floor2_hundredths 100
    norm_num at this
    simpa using this
  have h2 : floor2 (10000:ℚ) = 10000 := by
    have := floor2_hundredths 1000000
    norm_num at this
    simpa using this
  by_cases hlo : x < 1
  · have hx : floor2 x ≤ 1 := h1 ▸ floor2_mono hlo.le
    simp only [if_pos hlo]
    have : ¬ ((1:ℚ) > 10000) := by norm_num
    simp only [if_neg this, h1]
    rw [max_eq_left hx, min_eq_right (by norm_num)]
  · by_cases hhi : x > 10000
    · have hx : (10000:ℚ) ≤ floor2 x := h2 ▸ floor2_mono hhi.le
      simp only [if_neg hlo, if_pos hhi, h2]
      rw [max_eq_right (le_trans (by norm_num) hx), min_eq_left hx]
    · have hx1 : (1:ℚ) ≤ floor2 x := h1 ▸ floor2_mono (not_lt.mp hlo)
      have hx2 : floor2 x ≤ 10000 := h2 ▸ floor2_mono (not_lt.mp hhi)
      simp only [if_neg hlo, if_neg hhi]
      rw [max_eq_right hx1, min_eq_right hx2]

theorem calculate_crash_point_eq_spec (hash_int : ℕ) :
    CrashGameService.calculate_crash_point hash_int
      = CrashGameService.crash_point_spec hash_int := by
  unfold CrashGameService.calculate_crash_point CrashGameService.crash_point_spec
  have hmax : ((18446744073709551615 : ℕ) : ℚ) = 2 ^ 64 - 1 := by norm_num
  simp only [hmax, CrashGameService.HOUSE_EDGE, CrashGameService.MIN_CRASH_POINT,
    CrashGameService.MAX_CRASH_POINT]
  exact floor2_clamp _

/-- C1: for every 8-byte draw produced from the pair of seeds,
`calculate_crash_point` returns floor-to-2-decimals of (100/(100−3))/r,
where r is the draw divided by 2^64−1 (with r replaced by 1e-6 when it is
zero), clamped to [1.00, 10000.00]. -/
theorem c1_calculate_crash_point_matches_spec (hash_int : ℕ) :
    CrashGameService.calculate_crash_point hash_int
      = CrashGameService.crash_point_spec hash_int :=
  calculate_crash_point_eq_spec hash_int

/-- C10: every value of `calculate_crash_point` lies in [1.03, 10000.00] and
is an exact multiple of 0.01; the lower clamp to 1.00 never fires and no
round is assigned crash point 1.00, 1.01 or 1.02. -/
theorem c10_crash_point_range (hash_int : ℕ) (hle : hash_int ≤ 2 ^ 64 - 1) :
    (103:ℚ)/100 ≤ CrashGameService.calculate_crash_point hash_int ∧
    CrashGameService.calculate_crash_point hash_int ≤ 10000 ∧
    ∃ n : ℤ, CrashGameService.calculate_crash_point hash_int = (n:ℚ)/100 := by
  rw [calculate_crash_point_eq_spec]
  unfold CrashGameService.crash_point_spec
  set r0 : ℚ := (hash_int : ℚ) / (2 ^ 64 - 1) with hr0
  set r : ℚ := if r0 = 0 then 1 / 1000000 else r0 with hr
  have hX : (100:ℚ)/97 ≤ (100 / (100 - 3)) / r := by
    have h97 : ((100:ℚ) / (100 - 3)) = 100/97 := by norm_num
    rw [h97]
    by_cases h0 : r0 = 0
    · rw [hr, if_pos h0]; norm_num
    · rw [hr, if_neg h0]
      have hpos : 0 < r0 := by
        rcases Nat.eq_zero_or_pos hash_int with h | h
        · exact absurd (by rw [hr0, h]; simp) h0
        · rw [hr0]
          have : (0:ℚ) < (hash_int : ℚ) := by exact_mod_cast h
          positivity
      have hle1 : r0 ≤ 1 := by
        rw [hr0, div_le_one (by norm_num)]
        have hc : ((hash_int : ℚ)) ≤ (((2:ℕ) ^ 64 - 1 : ℕ) : ℚ) := by exact_mod_cast hle
        have : (((2:ℕ) ^ 64 - 1 : ℕ) : ℚ) = (2:ℚ) ^ 64 - 1 := by
          rw [Nat.cast_sub (by norm_num)]
          push_cast
          ring
        linarith [hc, this.ge, this.le]
      rw [le_div_iff₀ hpos]
      nlinarith
  have hfloor97 : floor2 ((100:ℚ)/97) = 103/100 := by
    unfold floor2
    have : ((100:ℚ)/97 * 100) = 10000/97 := by ring
    rw [this]
    have hf : ⌊(10000/97 : ℚ)⌋ = 103 := by
      rw [Int.floor_eq_iff]
      norm_num
    rw [hf]
    norm_num
  have hfloor : (103:ℚ)/100 ≤ floor2 ((100 / (100 - 3)) / r) :=
    hfloor97 ▸ floor2_mono hX
  refine ⟨le_min (by norm_num) (le_max_of_le_right hfloor), min_le_left _ _, ?_⟩
  have hy : ∃ n : ℤ, floor2 ((100 / (100 - 3)) / r) = (n:ℚ)/100 :=
    ⟨⌊((100 / (100 - 3)) / r) * 100⌋, rfl⟩
  rcases hy with ⟨n, hn⟩
  rcases le_total (max 1 (floor2 ((100 / (100 - 3)) / r))) 10000 with h | h
  · rw [min_eq_right h]
    rcases le_total 1 (floor2 ((100 / (100 - 3)) / r)) with h2 | h2
    · rw [max_eq_right h2]; exact ⟨n, hn⟩
    · rw [max_eq_left h2]; exact ⟨100, by norm_num⟩
  · rw [min_eq_left h]; exact ⟨1000000, by norm_num⟩

/-- Witness for C10 at the concrete draw 0. -/
theorem c10_crash_point_range_witness :
    (0:ℕ) ≤ 2 ^ 64 - 1 ∧
    ((103:ℚ)/100 ≤ CrashGameService.calculate_crash_point 0 ∧
     CrashGameService.calculate_crash_point 0 ≤ 10000 ∧
     ∃ n : ℤ, CrashGameService.calculate_crash_point 0 = (n:ℚ)/100) :=
  ⟨Nat.zero_le _, c10_crash_point_range 0 (Nat.zero_le _)⟩

namespace MinesGameService

/-- Number of cells on the 5×5 Mines grid. -/
def TOTAL_CELLS : ℕ := 25

/-- Round a rational to the nearest integer, ties to even — Python
`Decimal.quantize` default rounding `ROUND_HALF_EVEN`. -/
def round_half_even (x : ℚ) : ℤ :=
  let f := ⌊x⌋
  let frac := x - (f : ℚ)
  if frac < 1/2 then f
  else if 1/2 < frac then f + 1
  else if f % 2 = 0 then f else f + 1

/-- `quantize(Decimal('0.01'))`: round to hundredths, ties to even. -/
def quantize2 (x : ℚ) : ℚ := (round_half_even (x * 100) : ℚ) / 100

/-- The running product of the `for i in range(opened_safe_cells)` loop in
`MinesGameService.calculate_multiplier`. -/
def multiplier_loop (mine_count : ℕ) : ℕ → ℚ
  | 0 => 1
  | k + 1 =>
      multiplier_loop mine_count k *
        (((TOTAL_CELLS : ℚ) - k) / ((TOTAL_CELLS : ℚ) - mine_count - k))

/-- `MinesGameService.calculate_multiplier`, embedded from the source. -/
def calculate_multiplier (mine_count opened_safe_cells : ℕ) : ℚ :=
  if opened_safe_cells = 0 then 1
  else quantize2 (multiplier_loop mine_count opened_safe_cells)

end MinesGameService

theorem multiplier_loop_eq_prod (m k : ℕ) :
    MinesGameService.multiplier_loop m k
      = ∏ i ∈ Finset.range k, ((25:ℚ) - i) / ((25:ℚ) - m - i) := by
  induction k with
  | zero => simp [MinesGameService.multiplier_loop]
  | succ n ih =>
      rw [Finset.prod_range_succ, ← ih]
      rfl

theorem quantize2_one : MinesGameService.quantize2 1 = 1 := by
  norm_num [MinesGameService.quantize2, MinesGameService.round_half_even]

theorem calculate_multiplier_5_2 :
    MinesGameService.calculate_multiplier 5 2 = 158/100 := by
  norm_num [MinesGameService.calculate_multiplier, MinesGameService.multiplier_loop,
    MinesGameService.quantize2, MinesGameService.round_half_even,
    MinesGameService.TOTAL_CELLS]

/-- C5: for every mine count m ∈ [3,20] and every 0 ≤ k ≤ 25−m opened safe
cells, the Mines multiplier is the product over i < k of (25−i)/(25−m−i)
rounded to two decimals (ties to even); it is 1.0 at k = 0, and m = 5,
k = 2 yields 1.58. -/
theorem c5_mines_multiplier_formula (m k : ℕ) (h3 : 3 ≤ m) (h20 : m ≤ 20)
    (hk : k ≤ 25 - m) :
    MinesGameService.calculate_multiplier m k
      = MinesGameService.quantize2
          (∏ i ∈ Finset.range k, ((25:ℚ) - i) / ((25:ℚ) - m - i)) ∧
    (k = 0 → MinesGameService.calculate_multiplier m k = 1) ∧
    MinesGameService.calculate_multiplier 5 2 = 158/100 := by
  refine ⟨?_, fun h0 => by simp [MinesGameService.calculate_multiplier, h0],
    calculate_multiplier_5_2⟩
  by_cases h0 : k = 0
  · subst h0
    simp only [MinesGameService.calculate_multiplier, if_pos rfl, Finset.range_zero,
      Finset.prod_empty]
    exact quantize2_one.symm
  · rw [MinesGameService.calculate_multiplier, if_neg h0, multiplier_loop_eq_prod]

/-- Witness for C5 at m = 5, k = 2. -/
theorem c5_mines_multiplier_formula_witness :
    3 ≤ 5 ∧ 5 ≤ 20 ∧ 2 ≤ 25 - 5 ∧
    MinesGameService.calculate_multiplier 5 2
      = MinesGameService.quantize2
          (∏ i ∈ Finset.range 2, ((25:ℚ) - i) / ((25:ℚ) - 5 - i)) :=
  ⟨by norm_num, by norm_num, by norm_num,
    (c5_mines_multiplier_formula 5 2 (by norm_num) (by norm_num) (by norm_num)).1⟩

namespace WalletService

/-- Transaction kinds of `wallet.models.Transaction.TransactionType`. -/
inductive TxnType
  | deposit
  | bet
  | win
  | bonus
deriving DecidableEq

/-- A ledger entry as created by the wallet service (completed status). -/
structure Txn where
  amount : ℚ
  kind : TxnType
  balance_before : ℚ
  balance_after : ℚ
deriving DecidableEq

/-- The mutable profile fields touched by the wallet service. -/
structure Profile where
  balance : ℚ
  total_wagered : ℚ
  total_won : ℚ
deriving DecidableEq

/-- One user's wallet state: profile plus append-only transaction log. -/
structure Wallet where
  profile : Profile
  txns : List Txn
deriving DecidableEq

/-- The two exception kinds raised by the wallet service. -/
inductive WalletError
  | validationError
  | insufficientFunds
deriving DecidableEq

/-- `WalletService.validate_amount`: amount must be positive and at most
999999999.99. -/
def validate_amount (amount : ℚ) : Bool :=
  decide (0 < amount) && decide (amount ≤ (999999999.99 : ℚ))

/-- `WalletService.deposit` (state, raised exception); the exception is
raised before any mutation. -/
def deposit (w : Wallet) (amount : ℚ) : Wallet × Option WalletError :=
  if ¬ validate_amount amount then (w, some .validationError)
  else
    let balance_before := w.profile.balance
    let profile : Profile :=
      { w.profile with balance := w.profile.balance + amount }
    ({ profile := profile
       txns := w.txns ++ [⟨amount, .deposit, balance_before, profile.balance⟩] },
     none)

/-- `WalletService.place_bet`: validate, check balance, then deduct and log. -/
def place_bet (w : Wallet) (amount : ℚ) : Wallet × Option WalletError :=
  if ¬ validate_amount amount then (w, some .validationError)
  else if w.profile.balance < amount then (w, some .insufficientFunds)
  else
    let balance_before := w.profile.balance
    let profile : Profile :=
      { balance := w.profile.balance - amount
        total_wagered := w.profile.total_wagered + amount
        total_won := w.profile.total_won }
    ({ profile := profile
       txns := w.txns ++ [⟨amount, .bet, balance_before, profile.balance⟩] },
     none)

/-- `WalletService.add_winnings`: negative amounts rejected, zero skipped
with no entry, positive amounts credited. -/
def add_winnings (w : Wallet) (amount : ℚ) : Wallet × Option WalletError :=
  if amount < 0 then (w, some .validationError)
  else if amount = 0 then (w, none)
  else
    let balance_before := w.profile.balance
    let profile : Profile :=
      { balance := w.profile.balance + amount
        total_wagered := w.profile.total_wagered
        total_won := w.profile.total_won + amount }
    ({ profile := profile
       txns := w.txns ++ [⟨amount, .win, balance_before, profile.balance⟩] },
     none)

/-- `WalletService.add_bonus`. -/
def add_bonus (w : Wallet) (amount : ℚ) : Wallet × Option WalletError :=
  if ¬ validate_amount amount then (w, some .validationError)
  else
    let balance_before := w.profile.balance
    let profile : Profile :=
      { w.profile with balance := w.profile.balance + amount }
    ({ profile := profile
       txns := w.txns ++ [⟨amount, .bonus, balance_before, profile.balance⟩] },
     none)

/-- A ledger operation on one account. -/
inductive Op
  | deposit (amount : ℚ)
  | placeBet (amount : ℚ)
  | addWinnings (amount : ℚ)
  | addBonus (amount : ℚ)

/-- Dispatch one operation. -/
def applyOp (w : Wallet) : Op → Wallet × Option WalletError
  | .deposit a => deposit w a
  | .placeBet a => place_bet w a
  | .addWinnings a => add_winnings w a
  | .addBonus a => add_bonus w a

/-- Run a sequence of operations, failing if any raises. -/
def applyOps (w : Wallet) : List Op → Option Wallet
  | [] => some w
  | op :: rest =>
      match applyOp w op with
      | (w', none) => applyOps w' rest
      | (_, some _) => none

/-- Amount credited to the balance by a successful operation. -/
def creditOf : Op → ℚ
  | .deposit a => a
  | .placeBet _ => 0
  | .addWinnings a => a
  | .addBonus a => a

/-- Amount debited from the balance by a successful operation. -/
def debitOf : Op → ℚ
  | .deposit _ => 0
  | .placeBet a => a
  | .addWinnings _ => 0
  | .addBonus _ => 0

/-- Sum of credited amounts of a sequence. -/
def creditsSum (ops : List Op) : ℚ := (ops.map creditOf).sum

/-- Sum of debited amounts of a sequence. -/
def debitsSum (ops : List Op) : ℚ := (ops.map debitOf).sum

end WalletService

theorem applyOp_balance (w w' : WalletService.Wallet) (op : WalletService.Op)
    (h : WalletService.applyOp w op = (w', none)) :
    w'.profile.balance
      = w.profile.balance + WalletService.creditOf op - WalletService.debitOf op := by
  cases op with
  | deposit a =>
      simp only [WalletService.applyOp] at h
      unfold WalletService.deposit at h
      split_ifs at h with hc
      · injection h with h1 h2
        rw [← h1]
        simp [WalletService.creditOf, WalletService.debitOf]
      · exact absurd (congrArg Prod.snd h) (by simp)
  | placeBet a =>
      simp only [WalletService.applyOp] at h
      unfold WalletService.place_bet at h
      split_ifs at h with hc hb
      · exact absurd (congrArg Prod.snd h) (by simp)
      · injection h with h1 h2
        rw [← h1]
        simp [WalletService.creditOf, WalletService.debitOf]
      · exact absurd (congrArg Prod.snd h) (by simp)
  | addWinnings a =>
      simp only [WalletService.applyOp] at h
      unfold WalletService.add_winnings at h
      split_ifs at h with hneg hz
      · exact absurd (congrArg Prod.snd h) (by simp)
      · injection h with h1 h2
        rw [← h1]
        simp [WalletService.creditOf, WalletService.debitOf, hz]
      · injection h with h1 h2
        rw [← h1]
        simp [WalletService.creditOf, WalletService.debitOf]
  | addBonus a =>
      simp only [WalletService.applyOp] at h
      unfold WalletService.add_bonus at h
      split_ifs at h with hc
      · injection h with h1 h2
        rw [← h1]
        simp [WalletService.creditOf, WalletService.debitOf]
      · exact absurd (congrArg Prod.snd h) (by simp)

theorem applyOp_nonneg (w w' : WalletService.Wallet) (op : WalletService.Op)
    (hnn : 0 ≤ w.profile.balance) (h : WalletService.applyOp w op = (w', none)) :
    0 ≤ w'.profile.balance := by
  cases op with
  | deposit a =>
      simp only [WalletService.applyOp] at h
      unfold WalletService.deposit at h
      split_ifs at h with hc
      · injection h with h1 h2
        rw [← h1]
        unfold WalletService.validate_amount at hc
        simp at hc
        simp
        linarith [hc.1]
      · exact absurd (congrArg Prod.snd h) (by simp)
  | placeBet a =>
      simp only [WalletService.applyOp] at h
      unfold WalletService.place_bet at h
      split_ifs at h with hc hb
      · exact absurd (congrArg Prod.snd h) (by simp)
      · injection h with h1 h2
        rw [← h1]
        simp
        linarith [not_lt.mp hb]
      · exact absurd (congrArg Prod.snd h) (by simp)
  | addWinnings a =>
      simp only [WalletService.applyOp] at h
      unfold WalletService.add_winnings at h
      split_ifs at h with hneg hz
      · exact absurd (congrArg Prod.snd h) (by simp)
      · injection h with h1 h2
        rw [← h1]
        exact hnn
      · injection h with h1 h2
        rw [← h1]
        simp
        linarith [not_lt.mp hneg]
  | addBonus a =>
      simp only [WalletService.applyOp] at h
      unfold WalletService.add_bonus at h
      split_ifs at h with hc
      · injection h with h1 h2
        rw [← h1]
        unfold WalletService.validate_amount at hc
        simp at hc
        simp
        linarith [hc.1]
      · exact absurd (congrArg Prod.snd h) (by simp)

/-- C3: for any account and finite sequence of successful ledger operations
(deposit, bet debit, winnings credit, bonus), the final balance equals the
initial balance plus all credits minus all debits, and (starting from the
non-negative balance the data model guarantees) the balance is non-negative
after every prefix of the sequence. -/
theorem c3_money_conservation (w : WalletService.Wallet) (ops : List WalletService.Op)
    (w' : WalletService.Wallet) (hnn : 0 ≤ w.profile.balance)
    (h : WalletService.applyOps w ops = some w') :
    (w'.profile.balance
       = w.profile.balance + WalletService.creditsSum ops - WalletService.debitsSum ops) ∧
    (∀ pre suf, ops = pre ++ suf →
       ∀ w'', WalletService.applyOps w pre = some w'' → 0 ≤ w''.profile.balance) := by
  induction ops generalizing w with
  | nil =>
      simp only [WalletService.applyOps, Option.some.injEq] at h
      subst h
      refine ⟨by simp [WalletService.creditsSum, WalletService.debitsSum], ?_⟩
      intro pre suf hps w'' hw
      have hpre : pre = [] := by
        cases pre with
        | nil => rfl
        | cons x xs => simp at hps
      subst hpre
      simp only [WalletService.applyOps, Option.some.injEq] at hw
      subst hw
      exact hnn
  | cons op rest ih =>
      rw [WalletService.applyOps] at h
      rcases heq : WalletService.applyOp w op with ⟨w1, err⟩
      rw [heq] at h
      cases err with
      | some e => simp at h
      | none =>
          have hnn1 : 0 ≤ w1.profile.balance := applyOp_nonneg w w1 op hnn heq
          obtain ⟨hbal, hpre⟩ := ih w1 hnn1 h
          refine ⟨?_, ?_⟩
          · rw [hbal, applyOp_balance w w1 op heq]
            simp only [WalletService.creditsSum, WalletService.debitsSum, List.map_cons,
              List.sum_cons]
            ring
          · intro pre suf hps w'' hw
            cases pre with
            | nil =>
                simp only [WalletService.applyOps, Option.some.injEq] at hw
                subst hw
                exact hnn
            | cons p ps =>
                simp only [List.cons_append, List.cons.injEq] at hps
                obtain ⟨hop, hrest⟩ := hps
                subst hop
                rw [WalletService.applyOps, heq] at hw
                exact hpre ps suf hrest w'' hw

/-- Witness for C3: a deposit of 500 followed by a bet of 200 from an empty
wallet. -/
theorem c3_money_conservation_witness :
    (0:ℚ) ≤ (WalletService.Wallet.mk ⟨0, 0, 0⟩ []).profile.balance ∧
    ∃ w' : WalletService.Wallet,
      WalletService.applyOps (WalletService.Wallet.mk ⟨0, 0, 0⟩ [])
          [WalletService.Op.deposit 500, WalletService.Op.placeBet 200] = some w' ∧
      w'.profile.balance
        = (WalletService.Wallet.mk ⟨0, 0, 0⟩ []).profile.balance
            + WalletService.creditsSum
                [WalletService.Op.deposit 500, WalletService.Op.placeBet 200]
            - WalletService.debitsSum
                [WalletService.Op.deposit 500, WalletService.Op.placeBet 200] := by
  have hrun : WalletService.applyOps (WalletService.Wallet.mk ⟨0, 0, 0⟩ [])
      [WalletService.Op.deposit 500, WalletService.Op.placeBet 200]
      = some (WalletService.Wallet.mk ⟨300, 200, 0⟩
          [⟨500, .deposit, 0, 500⟩, ⟨200, .bet, 500, 300⟩]) := by
    simp only [WalletService.applyOps, WalletService.applyOp, WalletService.deposit,
      WalletService.place_bet, WalletService.validate_amount]
    norm_num
  refine ⟨le_refl 0, ⟨_, hrun, ?_⟩⟩
  exact (c3_money_conservation _ _ _ (le_refl 0) hrun).1

/-- Counterexample to C8 as stated: the amount 1000000000 is positive and
exceeds the balance 0, yet the debit fails with a ValidationError (amount
above 999999999.99), not InsufficientFunds. -/
theorem c8_counterexample :
    (0:ℚ) < 1000000000 ∧
    (WalletService.Wallet.mk ⟨0, 0, 0⟩ []).profile.balance < 1000000000 ∧
    (WalletService.place_bet (WalletService.Wallet.mk ⟨0, 0, 0⟩ []) 1000000000).2
        = some WalletService.WalletError.validationError ∧
    (WalletService.place_bet (WalletService.Wallet.mk ⟨0, 0, 0⟩ []) 1000000000).2
        ≠ some WalletService.WalletError.insufficientFunds := by
  have hval : WalletService.validate_amount 1000000000 = false := by
    unfold WalletService.validate_amount
    norm_num
  refine ⟨by norm_num, by norm_num, ?_, ?_⟩ <;>
    simp [WalletService.place_bet, hval]

/-- C8 amended: for every amount with 0 < amount ≤ 999999999.99 (the
validation cap), the debit fails with InsufficientFunds exactly when the
amount exceeds the balance; on any failure no state is mutated; on success
the balance drops by the amount, total-wagered rises by it, and exactly one
Bet entry is appended with matching balance-before/after. -/
theorem c8_debit_insufficient_funds (w : WalletService.Wallet) (amount : ℚ)
    (h0 : 0 < amount) (hcap : amount ≤ (999999999.99 : ℚ)) :
    ((WalletService.place_bet w amount).2
        = some WalletService.WalletError.insufficientFunds
      ↔ w.profile.balance < amount) ∧
    (∀ e, (WalletService.place_bet w amount).2 = some e
        → (WalletService.place_bet w amount).1 = w) ∧
    (amount ≤ w.profile.balance →
       (WalletService.place_bet w amount).2 = none ∧
       (WalletService.place_bet w amount).1.profile.balance
           = w.profile.balance - amount ∧
       (WalletService.place_bet w amount).1.profile.total_wagered
           = w.profile.total_wagered + amount ∧
       (WalletService.place_bet w amount).1.txns
           = w.txns ++ [⟨amount, WalletService.TxnType.bet, w.profile.balance,
                          w.profile.balance - amount⟩]) := by
  have hval : WalletService.validate_amount amount = true := by
    unfold WalletService.validate_amount
    simp [h0, hcap]
  unfold WalletService.place_bet
  rw [if_neg (by simp [hval])]
  by_cases hb : w.profile.balance < amount
  · rw [if_pos hb]
    exact ⟨by simp [hb], fun e _ => rfl, fun hle => absurd hb (not_lt.mpr hle)⟩
  · rw [if_neg hb]
    exact ⟨by simp [hb], fun e he => by simp at he,
      fun _ => ⟨rfl, rfl, rfl, rfl⟩⟩

/-- Witness for the amended C8 at balance 5, amount 3. -/
theorem c8_debit_insufficient_funds_witness :
    (0:ℚ) < 3 ∧ (3:ℚ) ≤ (999999999.99 : ℚ) ∧
    (((WalletService.place_bet (WalletService.Wallet.mk ⟨5, 0, 0⟩ []) 3).2
        = some WalletService.WalletError.insufficientFunds
      ↔ (WalletService.Wallet.mk ⟨5, 0, 0⟩ []).profile.balance < 3) ∧
    (∀ e, (WalletService.place_bet (WalletService.Wallet.mk ⟨5, 0, 0⟩ []) 3).2 = some e
        → (WalletService.place_bet (WalletService.Wallet.mk ⟨5, 0, 0⟩ []) 3).1
            = WalletService.Wallet.mk ⟨5, 0, 0⟩ []) ∧
    ((3:ℚ) ≤ (WalletService.Wallet.mk ⟨5, 0, 0⟩ []).profile.balance →
       (WalletService.place_bet (WalletService.Wallet.mk ⟨5, 0, 0⟩ []) 3).2 = none ∧
       (WalletService.place_bet (WalletService.Wallet.mk ⟨5, 0, 0⟩ []) 3).1.profile.balance
           = (WalletService.Wallet.mk ⟨5, 0, 0⟩ []).profile.balance - 3 ∧
       (WalletService.place_bet
           (WalletService.Wallet.mk ⟨5, 0, 0⟩ []) 3).1.profile.total_wagered
           = (WalletService.Wallet.mk ⟨5, 0, 0⟩ []).profile.total_wagered + 3 ∧
       (WalletService.place_bet (WalletService.Wallet.mk ⟨5, 0, 0⟩ []) 3).1.txns
           = (WalletService.Wallet.mk ⟨5, 0, 0⟩ []).txns
               ++ [⟨3, WalletService.TxnType.bet,
                    (WalletService.Wallet.mk ⟨5, 0, 0⟩ []).profile.balance,
                    (WalletService.Wallet.mk ⟨5, 0, 0⟩ []).profile.balance - 3⟩])) :=
  ⟨by norm_num, by norm_num,
    c8_debit_insufficient_funds (WalletService.Wallet.mk ⟨5, 0, 0⟩ []) 3
      (by norm_num) (by norm_num)⟩

namespace SlotsGameService

/-- The seven slot symbols; `wild` is the 🎁 bonus/wild symbol. -/
inductive Sym
  | cherry
  | lemon
  | orange
  | star
  | bell
  | seven
  | wild
deriving DecidableEq

/-- `MULTIPLIERS_3_MATCH` table. -/
def MULTIPLIERS_3_MATCH : Sym → ℚ
  | .cherry => 4.50
  | .lemon => 6.10
  | .orange => 9.00
  | .star => 13.20
  | .bell => 22.50
  | .seven => 45.00
  | .wild => 28.00

/-- `MULTIPLIERS_2_MATCH` table. -/
def MULTIPLIERS_2_MATCH : Sym → ℚ
  | .cherry => 1.12
  | .lemon => 0.92
  | .orange => 1.32
  | .star => 1.80
  | .bell => 2.25
  | .seven => 3.30
  | .wild => 1.32

/-- `Counter(l).most_common(1)[0]`: the symbol of `l` with the greatest
count, ties resolved in favour of the first occurrence. -/
def mostCommon (l : List Sym) : Sym × ℕ :=
  l.foldl (fun best s => if best.2 < l.count s then (s, l.count s) else best)
    (Sym.cherry, 0)

/-- The 3-reel branch of `SlotsGameService.check_win`, embedded from the
source; only the returned multiplier is modelled (the combination label
string is display-only). -/
def check_win3 (reels : List Sym) : ℚ :=
  let bonus_count := reels.count Sym.wild
  if bonus_count = 3 then MULTIPLIERS_3_MATCH Sym.wild
  else if bonus_count = 2 then MULTIPLIERS_2_MATCH Sym.wild
  else
    let non_bonus := reels.filter (fun s => ¬ s = Sym.wild)
    if non_bonus.length = 0 then 0
    else
      let mc := mostCommon non_bonus
      if mc.2 = 3 ∧ MULTIPLIERS_3_MATCH mc.1 > 0 then MULTIPLIERS_3_MATCH mc.1
      else if mc.2 = 2 ∧ Sym.wild ∈ reels ∧ MULTIPLIERS_2_MATCH mc.1 > 0 then
        MULTIPLIERS_2_MATCH mc.1 * 1.5
      else if mc.2 = 2 ∧ MULTIPLIERS_2_MATCH mc.1 > 0 then
        MULTIPLIERS_2_MATCH mc.1
      else 0

end SlotsGameService

theorem M2_pos (s : SlotsGameService.Sym) :
    0 < SlotsGameService.MULTIPLIERS_2_MATCH s := by
  cases s <;> norm_num [SlotsGameService.MULTIPLIERS_2_MATCH]

theorem check_win3_pair_nowild (s t : SlotsGameService.Sym) (hs : s ≠ .wild)
    (ht : t ≠ .wild) (hts : t ≠ s) :
    SlotsGameService.check_win3 [s, s, t] = SlotsGameService.MULTIPLIERS_2_MATCH s ∧
    SlotsGameService.check_win3 [s, t, s] = SlotsGameService.MULTIPLIERS_2_MATCH s ∧
    SlotsGameService.check_win3 [t, s, s] = SlotsGameService.MULTIPLIERS_2_MATCH s := by
  refine ⟨?_, ?_, ?_⟩ <;>
    simp [SlotsGameService.check_win3, SlotsGameService.mostCommon, List.count_cons,
      hs, ht, hts, Ne.symm hs, Ne.symm ht, Ne.symm hts, M2_pos s]

theorem check_win3_pair_wild (s : SlotsGameService.Sym) (hs : s ≠ .wild) :
    SlotsGameService.check_win3 [s, s, .wild]
        = SlotsGameService.MULTIPLIERS_2_MATCH s * 1.5 ∧
    SlotsGameService.check_win3 [s, .wild, s]
        = SlotsGameService.MULTIPLIERS_2_MATCH s * 1.5 ∧
    SlotsGameService.check_win3 [.wild, s, s]
        = SlotsGameService.MULTIPLIERS_2_MATCH s * 1.5 := by
  refine ⟨?_, ?_, ?_⟩ <;>
    simp [SlotsGameService.check_win3, SlotsGameService.mostCommon, List.count_cons,
      hs, Ne.symm hs, M2_pos s]

/-- Counterexample to C9 as stated: the outcome 🍒🍒🎁 contains exactly two
equal non-wild symbols, yet the returned multiplier is the 2-of-a-kind
table value times 1.5, not the table value itself. -/
theorem c9_counterexample :
    [SlotsGameService.Sym.cherry, SlotsGameService.Sym.cherry,
        SlotsGameService.Sym.wild].count SlotsGameService.Sym.cherry = 2 ∧
    SlotsGameService.check_win3
        [SlotsGameService.Sym.cherry, SlotsGameService.Sym.cherry,
         SlotsGameService.Sym.wild]
      ≠ SlotsGameService.MULTIPLIERS_2_MATCH SlotsGameService.Sym.cherry ∧
    SlotsGameService.check_win3
        [SlotsGameService.Sym.cherry, SlotsGameService.Sym.cherry,
         SlotsGameService.Sym.wild]
      = SlotsGameService.MULTIPLIERS_2_MATCH SlotsGameService.Sym.cherry * 1.5 := by
  have h := (check_win3_pair_wild SlotsGameService.Sym.cherry (by decide)).1
  refine ⟨by decide, ?_, h⟩
  rw [h]
  norm_num [SlotsGameService.MULTIPLIERS_2_MATCH]

/-- C9 amended: an outcome with exactly two equal non-wild symbols maps to
that symbol's fixed 2-of-a-kind table multiplier when the remaining reel is
a non-wild symbol, and to that table multiplier times 1.5 when the
remaining reel is the wild symbol. -/
theorem c9_two_of_a_kind_amended (a b c s : SlotsGameService.Sym)
    (hs : s ≠ .wild) (hcount : [a, b, c].count s = 2) :
    SlotsGameService.check_win3 [a, b, c]
      = (if SlotsGameService.Sym.wild ∈ [a, b, c]
         then SlotsGameService.MULTIPLIERS_2_MATCH s * 1.5
         else SlotsGameService.MULTIPLIERS_2_MATCH s) := by
  by_cases ha : a = s <;> by_cases hb : b = s <;> by_cases hc : c = s
  · exact absurd hcount (by simp [List.count_cons, ha, hb, hc])
  · -- a = s, b = s, c ≠ s
    rw [ha, hb]
    by_cases hcw : c = .wild
    · rw [hcw, if_pos (by simp)]
      exact (check_win3_pair_wild s hs).1
    · rw [if_neg (by simp [Ne.symm hs, Ne.symm hcw])]
      exact (check_win3_pair_nowild s c hs hcw hc).1
  · -- a = s, b ≠ s, c = s
    rw [ha, hc]
    by_cases hbw : b = .wild
    · rw [hbw, if_pos (by simp)]
      exact (check_win3_pair_wild s hs).2.1
    · rw [if_neg (by simp [Ne.symm hs, Ne.symm hbw])]
      exact (check_win3_pair_nowild s b hs hbw hb).2.1
  · exact absurd hcount (by simp [List.count_cons, ha, hb, hc])
  · -- a ≠ s, b = s, c = s
    rw [hb, hc]
    by_cases haw : a = .wild
    · rw [haw, if_pos (by simp)]
      exact (check_win3_pair_wild s hs).2.2
    · rw [if_neg (by simp [Ne.symm hs, Ne.symm haw])]
      exact (check_win3_pair_nowild s a hs haw ha).2.2
  · exact absurd hcount (by simp [List.count_cons, ha, hb, hc])
  · exact absurd hcount (by simp [List.count_cons, ha, hb, hc])
  · exact absurd hcount (by simp [List.count_cons, ha, hb, hc])

/-- Witness for the amended C9 at 🍒🍒🍋. -/
theorem c9_two_of_a_kind_amended_witness :
    SlotsGameService.Sym.cherry ≠ SlotsGameService.Sym.wild ∧
    [SlotsGameService.Sym.cherry, SlotsGameService.Sym.cherry,
        SlotsGameService.Sym.lemon].count SlotsGameService.Sym.cherry = 2 ∧
    SlotsGameService.check_win3
        [SlotsGameService.Sym.cherry, SlotsGameService.Sym.cherry,
         SlotsGameService.Sym.lemon]
      = (if SlotsGameService.Sym.wild
            ∈ [SlotsGameService.Sym.cherry, SlotsGameService.Sym.cherry,
               SlotsGameService.Sym.lemon]
         then SlotsGameService.MULTIPLIERS_2_MATCH SlotsGameService.Sym.cherry * 1.5
         else SlotsGameService.MULTIPLIERS_2_MATCH SlotsGameService.Sym.cherry) :=
  ⟨by decide, by decide,
    c9_two_of_a_kind_amended _ _ _ _ (by decide) (by decide)⟩

theorem cons_set_perm {α : Type} (a : α) :
    ∀ (t : List α) (m : ℕ) (hm : m < t.length),
      List.Perm (t.get ⟨m, hm⟩ :: t.set m a) (a :: t) := by
  intro t
  induction t with
  | nil => intro m hm; simp at hm
  | cons b s ih =>
      intro m hm
      cases m with
      | zero =>
          simp only [List.get, List.set]
          exact List.Perm.swap a b s
      | succ k =>
          have hk : k < s.length := by simpa using hm
          simp only [List.get_cons_succ, List.set]
          exact (List.Perm.swap b _ _).trans
            ((List.Perm.cons b (ih k hk)).trans (List.Perm.swap a b s))

theorem set_set_perm {α : Type} :
    ∀ (l : List α) (i j : ℕ) (hi : i < l.length) (hj : j < l.length),
      List.Perm ((l.set i (l.get ⟨j, hj⟩)).set j (l.get ⟨i, hi⟩)) l := by
  intro l
  induction l with
  | nil => intro i j hi hj; simp at hi
  | cons a t ih =>
      intro i j hi hj
      cases i with
      | zero =>
          cases j with
          | zero => simp [List.set]
          | succ k =>
              have hk : k < t.length := by simpa using hj
              simp only [List.get_cons_succ, List.get, List.set]
              exact cons_set_perm a t k hk
      | succ m =>
          cases j with
          | zero =>
              have hm : m < t.length := by simpa using hi
              simp only [List.get_cons_succ, List.get, List.set]
              exact cons_set_perm a t m hm
          | succ k =>
              have hm : m < t.length := by simpa using hi
              have hk : k < t.length := by simpa using hj
              simp only [List.get_cons_succ, List.set]
              exact List.Perm.cons a (ih m k hm hk)

namespace ProvablyFairService

/-- `GRID_SIZE` constant. -/
def GRID_SIZE : ℕ := 5

/-- `TOTAL_CELLS` constant. -/
def TOTAL_CELLS : ℕ := GRID_SIZE * GRID_SIZE

/-- The ordered cell list built by the comprehension
`[(row, col) for row in range(GRID_SIZE) for col in range(GRID_SIZE)]`. -/
def allCells : List (ℕ × ℕ) :=
  (List.range GRID_SIZE).flatMap fun row =>
    (List.range GRID_SIZE).map fun col => (row, col)

/-- Python simultaneous swap `cells[i], cells[j] = cells[j], cells[i]`;
identity when either index is out of range (never hit by the caller). -/
def swapL {α : Type} (l : List α) (i j : ℕ) : List α :=
  if h : i < l.length ∧ j < l.length then
    (l.set i (l.get ⟨j, h.2⟩)).set j (l.get ⟨i, h.1⟩)
  else l

/-- The `for i in range(len(cells) - 1, 0, -1)` Fisher–Yates loop.  `rand k`
is the k-th 2-byte big-endian draw taken from the HMAC digest stream (the
stream is extended by re-hashing when exhausted); the swap index is that
draw reduced mod (i + 1). -/
def fyLoop {α : Type} (rand : ℕ → ℕ) : ℕ → ℕ → List α → List α
  | 0, _, l => l
  | i + 1, k, l => fyLoop rand i (k + 1) (swapL l (i + 1) (rand k % (i + 2)))

/-- `ProvablyFairService.generate_mine_positions`, embedded from the source
with the HMAC byte stream abstracted to the draw sequence `rand`. -/
def generate_mine_positions (rand : ℕ → ℕ) (mine_count : ℕ) :
    Except String (List (ℕ × ℕ)) :=
  if mine_count < 3 ∨ mine_count > 20 then
    .error "Mine count must be between 3 and 20"
  else if mine_count > TOTAL_CELLS then
    .error "Mine count cannot exceed total cells"
  else
    .ok ((fyLoop rand (allCells.length - 1) 0 allCells).take mine_count)

end ProvablyFairService

theorem swapL_perm {α : Type} (l : List α) (i j : ℕ) :
    List.Perm (ProvablyFairService.swapL l i j) l := by
  unfold ProvablyFairService.swapL
  split
  · exact set_set_perm l i j _ _
  · exact List.Perm.refl l

theorem fyLoop_perm {α : Type} (rand : ℕ → ℕ) :
    ∀ (i k : ℕ) (l : List α), List.Perm (ProvablyFairService.fyLoop rand i k l) l := by
  intro i
  induction i with
  | zero => intro k l; exact List.Perm.refl l
  | succ n ih =>
      intro k l
      exact (ih (k + 1) _).trans (swapL_perm l (n + 1) (rand k % (n + 2)))

theorem allCells_spec :
    ProvablyFairService.allCells.length = 25 ∧
    ProvablyFairService.allCells.Nodup ∧
    ∀ p ∈ ProvablyFairService.allCells, p.1 < 5 ∧ p.2 < 5 := by
  refine ⟨by decide, by decide, by decide⟩

/-- C4: for every draw stream and every mineCount in [3,20],
`generate_mine_positions` returns exactly mineCount pairwise-distinct cells
with row and column in [0,4]; for mineCount outside [3,20] it returns a
validation error instead. -/
theorem c4_generate_mine_positions (rand : ℕ → ℕ) (m : ℕ) :
    (3 ≤ m → m ≤ 20 →
      ∃ ps, ProvablyFairService.generate_mine_positions rand m = .ok ps ∧
        ps.length = m ∧ ps.Nodup ∧ ∀ p ∈ ps, p.1 < 5 ∧ p.2 < 5) ∧
    (m < 3 ∨ 20 < m →
      ∃ msg, ProvablyFairService.generate_mine_positions rand m = .error msg) := by
  obtain ⟨hlen, hnd, hmem⟩ := allCells_spec
  constructor
  · intro h3 h20
    have hguard : ¬ (m < 3 ∨ m > 20) := by omega
    have hcells : ¬ (m > ProvablyFairService.TOTAL_CELLS) := by
      unfold ProvablyFairService.TOTAL_CELLS ProvablyFairService.GRID_SIZE
      omega
    refine ⟨(ProvablyFairService.fyLoop rand (ProvablyFairService.allCells.length - 1)
        0 ProvablyFairService.allCells).take m, ?_, ?_, ?_, ?_⟩
    · unfold ProvablyFairService.generate_mine_positions
      rw [if_neg hguard, if_neg hcells]
    · have hperm := fyLoop_perm rand (ProvablyFairService.allCells.length - 1) 0
        ProvablyFairService.allCells
      rw [List.length_take, hperm.length_eq, hlen]
      omega
    · have hperm := fyLoop_perm rand (ProvablyFairService.allCells.length - 1) 0
        ProvablyFairService.allCells
      exact (List.take_sublist _ _).nodup (hperm.nodup_iff.mpr hnd)
    · intro p hp
      have hperm := fyLoop_perm rand (ProvablyFairService.allCells.length - 1) 0
        ProvablyFairService.allCells
      exact hmem p (hperm.mem_iff.mp (List.take_subset _ _ hp))
  · intro hout
    refine ⟨"Mine count must be between 3 and 20", ?_⟩
    unfold ProvablyFairService.generate_mine_positions
    rw [if_pos (by omega)]

/-- Witness for C4 at the constant-zero draw stream and mineCount 5. -/
theorem c4_generate_mine_positions_witness :
    (3 ≤ 5 ∧ 5 ≤ 20 ∧
      ∃ ps, ProvablyFairService.generate_mine_positions (fun _ => 0) 5 = .ok ps ∧
        ps.length = 5 ∧ ps.Nodup ∧ ∀ p ∈ ps, p.1 < 5 ∧ p.2 < 5) ∧
    ((2:ℕ) < 3 ∨ 20 < (2:ℕ) →
      ∃ msg, ProvablyFairService.generate_mine_positions (fun _ => 0) 2 = .error msg) :=
  ⟨⟨by decide, by decide,
      (c4_generate_mine_positions (fun _ => 0) 5).1 (by decide) (by decide)⟩,
    (c4_generate_mine_positions (fun _ => 0) 2).2⟩

namespace CrashGameService

/-- `CrashRound.RoundStatus`. -/
inductive RoundStatus
  | waiting
  | active
  | crashed
deriving DecidableEq

/-- `CrashBet.BetStatus`. -/
inductive BetStatus
  | active
  | cashedOut
  | lost
deriving DecidableEq

/-- The fields of `games.models.CrashBet` used by the service layer. -/
structure CrashBet where
  user : ℕ
  round_id : ℕ
  bet_amount : ℚ
  status : BetStatus
  auto_cashout_target : Option ℚ
  cashout_multiplier : Option ℚ
  win_amount : ℚ
deriving DecidableEq

/-- The fields of `games.models.CrashRound` used by the service layer. -/
structure CrashRound where
  id : ℕ
  status : RoundStatus
  crash_point : ℚ
  started_at : Option ℚ
  crashed_at : Option ℚ
deriving DecidableEq

/-- The queryset filter of `process_auto_cashouts`: status ACTIVE,
auto_cashout_target non-null and at most the current multiplier. -/
def autoQualifies (b : CrashBet) (cur : ℚ) : Bool :=
  b.status == .active &&
    match b.auto_cashout_target with
    | some t => decide (t ≤ cur)
    | none => false

/-- The per-bet update of `process_auto_cashouts`: cash out at the bet's
own auto-cashout target. -/
def settleAuto (b : CrashBet) : CrashBet :=
  match b.auto_cashout_target with
  | some t =>
      { b with status := .cashedOut, cashout_multiplier := some t,
               win_amount := b.bet_amount * t }
  | none => b

/-- `CrashGameService.process_auto_cashouts`, embedded from the source:
returns the updated bet list, the count of bets cashed out, and the list of
`add_winnings` credits issued (user, amount). -/
def process_auto_cashouts (cur : ℚ) : List CrashBet → List CrashBet × ℕ × List (ℕ × ℚ)
  | [] => ([], 0, [])
  | b :: rest =>
      let res := process_auto_cashouts cur rest
      if autoQualifies b cur then
        (settleAuto b :: res.1, res.2.1 + 1, (b.user, (settleAuto b).win_amount) :: res.2.2)
      else
        (b :: res.1, res.2.1, res.2.2)

end CrashGameService

/-- C2: `process_auto_cashouts` settles exactly the Active bets whose
auto-cashout target is set and at most the current multiplier; each such
bet is settled once, at its own target price (payout = amount × target, not
the live multiplier), transitioning to CashedOut with the target recorded;
all other bets are left unchanged (in particular they stay Active); the
returned count is the number of bets settled. -/
theorem c2_process_auto_cashouts (bets : List CrashGameService.CrashBet) (cur : ℚ) :
    ((CrashGameService.process_auto_cashouts cur bets).1
        = bets.map (fun b =>
            if CrashGameService.autoQualifies b cur
            then CrashGameService.settleAuto b else b)) ∧
    ((CrashGameService.process_auto_cashouts cur bets).2.1
        = (bets.filter (fun b => CrashGameService.autoQualifies b cur)).length) ∧
    ((CrashGameService.process_auto_cashouts cur bets).2.2
        = (bets.filter (fun b => CrashGameService.autoQualifies b cur)).map
            (fun b => (b.user, (CrashGameService.settleAuto b).win_amount))) ∧
    (∀ b : CrashGameService.CrashBet, ∀ t : ℚ,
       b.status = .active → b.auto_cashout_target = some t → t ≤ cur →
         CrashGameService.autoQualifies b cur = true ∧
         (CrashGameService.settleAuto b).status = .cashedOut ∧
         (CrashGameService.settleAuto b).cashout_multiplier = some t ∧
         (CrashGameService.settleAuto b).win_amount = b.bet_amount * t) ∧
    (∀ b : CrashGameService.CrashBet,
       CrashGameService.autoQualifies b cur = false →
         (if CrashGameService.autoQualifies b cur
          then CrashGameService.settleAuto b else b) = b) := by
  refine ⟨?_, ?_, ?_, ?_, ?_⟩
  · induction bets with
    | nil => rfl
    | cons b rest ih =>
        simp only [CrashGameService.process_auto_cashouts, List.map_cons]
        by_cases hq : CrashGameService.autoQualifies b cur
        · simp [hq, ih]
        · simp [hq, ih]
  · induction bets with
    | nil => rfl
    | cons b rest ih =>
        simp only [CrashGameService.process_auto_cashouts, List.filter_cons]
        by_cases hq : CrashGameService.autoQualifies b cur
        · simp [hq, ih]
        · simp [hq, ih]
  · induction bets with
    | nil => rfl
    | cons b rest ih =>
        simp only [CrashGameService.process_auto_cashouts, List.filter_cons]
        by_cases hq : CrashGameService.autoQualifies b cur
        · simp [hq, ih]
        · simp [hq, ih]
  · intro b t hb ht htle
    have hq : CrashGameService.autoQualifies b cur = true := by
      unfold CrashGameService.autoQualifies
      rw [ht]
      simp [hb, htle]
    refine ⟨hq, ?_, ?_, ?_⟩ <;>
      simp [CrashGameService.settleAuto, ht]
  · intro b hq
    simp [hq]

/-- Witness for C2 (the C2 statement has implication hypotheses inside):
one Active bet of 10.00 with target 2.00 at live multiplier 3.00 is settled
at 20.00, and a target-less Active bet stays unchanged. -/
theorem c2_process_auto_cashouts_witness :
    ((CrashGameService.process_auto_cashouts 3
        [⟨7, 1, 10, .active, some 2, none, 0⟩]).1
      = [⟨7, 1, 10, .active, some 2, none, 0⟩].map (fun b =>
          if CrashGameService.autoQualifies b 3
          then CrashGameService.settleAuto b else b)) ∧
    (CrashGameService.CrashBet.mk 7 1 10 .active (some 2) none 0).status = .active ∧
    (CrashGameService.settleAuto ⟨7, 1, 10, .active, some 2, none, 0⟩).win_amount
        = (10:ℚ) * 2 := by
  have h := c2_process_auto_cashouts [⟨7, 1, 10, .active, some 2, none, 0⟩] 3
  refine ⟨h.1, rfl, ?_⟩
  exact (h.2.2.2.1 ⟨7, 1, 10, .active, some 2, none, 0⟩ 2 rfl rfl (by norm_num)).2.2.2

namespace CrashGameService

/-- Global state touched by the crash engine: the round table, the bet
table, and the log of ledger credits issued (user, amount). -/
structure CrashState where
  rounds : List CrashRound
  bets : List CrashBet
  credits : List (ℕ × ℚ)

/-- `CrashGameService.crash_round`: set the round status to CRASHED, stamp
crashed_at, bulk-update every remaining ACTIVE bet of the round to LOST;
no ledger credit is issued. -/
def crash_round (s : CrashState) (rid : ℕ) (t : ℚ) : CrashState :=
  { s with
    rounds := s.rounds.map fun r =>
      if r.id = rid then { r with status := .crashed, crashed_at := some t } else r
    bets := s.bets.map fun b =>
      if b.round_id = rid ∧ b.status = .active then { b with status := .lost } else b }

/-- The operations that can touch rounds and bets, with the guards the
source code enforces, as one atomic step each (every service method runs
in a database transaction). -/
inductive Step : CrashState → CrashState → Prop
  | start_new_round (s : CrashState) (r : CrashRound)
      (hfresh : ∀ r' ∈ s.rounds, r'.id ≠ r.id) (hw : r.status = .waiting) :
      Step s { s with rounds := s.rounds ++ [r] }
  | activate_round (s : CrashState) (rid : ℕ) (t : ℚ) :
      Step s { s with rounds := s.rounds.map fun r =>
        if r.id = rid then { r with status := .active, started_at := some t } else r }
  | place_bet (s : CrashState) (b : CrashBet) (r : CrashRound) (hr : r ∈ s.rounds)
      (hrid : b.round_id = r.id) (hnc : r.status ≠ .crashed) (hb : b.status = .active) :
      Step s { s with bets := s.bets ++ [b] }
  | cashout (s : CrashState) (i : ℕ) (hi : i < s.bets.length) (r : CrashRound)
      (hr : r ∈ s.rounds) (hrid : (s.bets.get ⟨i, hi⟩).round_id = r.id)
      (hra : r.status = .active) (hba : (s.bets.get ⟨i, hi⟩).status = .active)
      (mult : ℚ) :
      Step s { s with
        bets := s.bets.set i { s.bets.get ⟨i, hi⟩ with
          status := .cashedOut, cashout_multiplier := some mult,
          win_amount := (s.bets.get ⟨i, hi⟩).bet_amount * mult }
        credits := s.credits
          ++ [((s.bets.get ⟨i, hi⟩).user, (s.bets.get ⟨i, hi⟩).bet_amount * mult)] }
  | auto_cashout (s : CrashState) (rid : ℕ) (cur : ℚ) :
      Step s { s with
        bets := s.bets.map fun b =>
          if b.round_id = rid ∧ autoQualifies b cur then settleAuto b else b
        credits := s.credits
          ++ ((s.bets.filter fun b =>
                decide (b.round_id = rid) && autoQualifies b cur).map
              fun b => (b.user, (settleAuto b).win_amount)) }
  | crash (s : CrashState) (rid : ℕ) (t : ℚ) :
      Step s (crash_round s rid t)

/-- Round ids are unique (database primary keys). -/
def RoundIdsNodup (s : CrashState) : Prop :=
  (s.rounds.map CrashRound.id).Nodup

/-- No bet of a Crashed round is Active. -/
def NoActiveBetInCrashed (s : CrashState) : Prop :=
  ∀ b ∈ s.bets, ∀ r ∈ s.rounds, b.round_id = r.id → r.status = .crashed →
    b.status ≠ .active

/-- System invariant. -/
def Inv (s : CrashState) : Prop := RoundIdsNodup s ∧ NoActiveBetInCrashed s

end CrashGameService

theorem settleAuto_round_id (b : CrashGameService.CrashBet) :
    (CrashGameService.settleAuto b).round_id = b.round_id := by
  unfold CrashGameService.settleAuto
  cases b.auto_cashout_target <;> rfl

theorem settleAuto_status_of_qualifies (b : CrashGameService.CrashBet) (cur : ℚ)
    (h : CrashGameService.autoQualifies b cur = true) :
    (CrashGameService.settleAuto b).status = .cashedOut := by
  unfold CrashGameService.autoQualifies at h
  unfold CrashGameService.settleAuto
  cases ht : b.auto_cashout_target with
  | none => rw [ht] at h; simp at h
  | some t => rfl

theorem round_eq_of_id_eq {s : CrashGameService.CrashState}
    (hnd : CrashGameService.RoundIdsNodup s) {r r' : CrashGameService.CrashRound}
    (hr : r ∈ s.rounds) (hr' : r' ∈ s.rounds) (hid : r.id = r'.id) : r = r' :=
  List.inj_on_of_nodup_map hnd hr hr' hid

theorem step_preserves_inv {s s' : CrashGameService.CrashState}
    (hinv : CrashGameService.Inv s) (hstep : CrashGameService.Step s s') :
    CrashGameService.Inv s' := by
  obtain ⟨hnd, hnab⟩ := hinv
  cases hstep with
  | start_new_round r hfresh hw =>
      constructor
      · unfold CrashGameService.RoundIdsNodup at hnd ⊢
        simp only [List.map_append, List.map_cons, List.map_nil]
        refine List.Nodup.append hnd (List.nodup_singleton _) ?_
        intro x hx hx'
        simp at hx'
        rcases List.mem_map.mp hx with ⟨r', hr', hid⟩
        exact hfresh r' hr' (hx' ▸ hid)
      · intro b hb r' hr' hbid hcr
        rcases List.mem_append.mp hr' with h | h
        · exact hnab b hb r' h hbid hcr
        · simp at h
          rw [h, hw] at hcr
          simp at hcr
  | activate_round rid t =>
      constructor
      · unfold CrashGameService.RoundIdsNodup at hnd ⊢
        rw [List.map_map]
        have : ∀ r ∈ s.rounds,
            (CrashGameService.CrashRound.id ∘ fun r =>
              if r.id = rid then { r with status := .active, started_at := some t }
              else r) r = r.id := by
          intro r _
          by_cases h : r.id = rid <;> simp [h]
        rw [List.map_congr_left this]
        exact hnd
      · intro b hb r' hr' hbid hcr
        rcases List.mem_map.mp hr' with ⟨r0, hr0, hfr⟩
        by_cases h0 : r0.id = rid
        · rw [← hfr] at hcr
          simp [h0] at hcr
        · rw [← hfr] at hcr hbid
          simp [h0] at hcr hbid
          exact hnab b hb r0 hr0 hbid hcr
  | place_bet b r hr hrid hnc hb =>
      refine ⟨hnd, ?_⟩
      intro b' hb' r' hr' hbid hcr
      rcases List.mem_append.mp hb' with h | h
      · exact hnab b' h r' hr' hbid hcr
      · simp at h
        rw [h] at hbid
        have hid : r.id = r'.id := by rw [← hrid]; exact hbid
        have := round_eq_of_id_eq hnd hr hr' hid
        rw [this] at hnc
        exact absurd hcr hnc
  | cashout i hi r hr hrid hra hba mult =>
      refine ⟨hnd, ?_⟩
      intro b' hb' r' hr' hbid hcr
      rcases List.mem_or_eq_of_mem_set hb' with h | h
      · exact hnab b' h r' hr' hbid hcr
      · rw [h]
        intro habs
        simp at habs
  | auto_cashout rid cur =>
      refine ⟨hnd, ?_⟩
      intro b' hb' r' hr' hbid hcr
      rcases List.mem_map.mp hb' with ⟨b0, hb0, hfb⟩
      by_cases hcond : b0.round_id = rid ∧ CrashGameService.autoQualifies b0 cur
      · rw [← hfb, if_pos hcond]
        rw [settleAuto_status_of_qualifies b0 cur hcond.2]
        simp
      · rw [← hfb, if_neg hcond] at hbid ⊢
        exact hnab b0 hb0 r' hr' hbid hcr
  | crash rid t =>
      unfold CrashGameService.crash_round
      constructor
      · unfold CrashGameService.RoundIdsNodup at hnd ⊢
        rw [List.map_map]
        have : ∀ r ∈ s.rounds,
            (CrashGameService.CrashRound.id ∘ fun r =>
              if r.id = rid then { r with status := .crashed, crashed_at := some t }
              else r) r = r.id := by
          intro r _
          by_cases h : r.id = rid <;> simp [h]
        rw [List.map_congr_left this]
        exact hnd
      · intro b' hb' r' hr' hbid hcr
        rcases List.mem_map.mp hb' with ⟨b0, hb0, hfb⟩
        rcases List.mem_map.mp hr' with ⟨r0, hr0, hfr⟩
        by_cases hbcond : b0.round_id = rid ∧ b0.status = .active
        · rw [← hfb, if_pos hbcond]
          intro habs
          simp at habs
        · rw [← hfb, if_neg hbcond] at hbid ⊢
          by_cases h0 : r0.id = rid
          · have hid : r'.id = rid := by
              rw [← hfr, if_pos h0]
              exact h0
            intro habs
            exact hbcond ⟨hbid.trans hid, habs⟩
          · have hr'eq : r' = r0 := by rw [← hfr, if_neg h0]
            rw [hr'eq] at hbid hcr
            exact hnab b0 hb0 r0 hr0 hbid hcr

theorem steps_preserve_inv {a b : CrashGameService.CrashState}
    (hinv : CrashGameService.Inv a)
    (hsteps : Relation.ReflTransGen CrashGameService.Step a b) :
    CrashGameService.Inv b := by
  induction hsteps with
  | refl => exact hinv
  | tail hab hbc ih => exact step_preserves_inv ih hbc

/-- C7: after `crash_round`, the round is Crashed with crashedAt stamped,
every previously Active bet of the round is Lost, no ledger credit is
issued, and no bet of the round is Active; crashing is one atomic step of
the system, and from any state satisfying the invariant, every reachable
state still has no Active bet in any Crashed round — the driver loop never
leaves a bet Active once its round has crashed. -/
theorem c7_crash_round_settlement (s : CrashGameService.CrashState) (rid : ℕ) (t : ℚ) :
    (∀ r ∈ (CrashGameService.crash_round s rid t).rounds, r.id = rid →
        r.status = .crashed ∧ r.crashed_at = some t) ∧
    (∀ b ∈ (CrashGameService.crash_round s rid t).bets, b.round_id = rid →
        b.status ≠ .active) ∧
    (∀ b ∈ s.bets, b.round_id = rid → b.status = .active →
        { b with status := CrashGameService.BetStatus.lost }
          ∈ (CrashGameService.crash_round s rid t).bets) ∧
    ((CrashGameService.crash_round s rid t).credits = s.credits) ∧
    CrashGameService.Step s (CrashGameService.crash_round s rid t) ∧
    (∀ s₁ s₂, CrashGameService.Inv s₁ →
        Relation.ReflTransGen CrashGameService.Step s₁ s₂ →
        CrashGameService.Inv s₂) := by
  refine ⟨?_, ?_, ?_, rfl, CrashGameService.Step.crash s rid t,
    fun s₁ s₂ h hs => steps_preserve_inv h hs⟩
  · intro r hr hid
    rcases List.mem_map.mp hr with ⟨r0, hr0, hfr⟩
    by_cases h0 : r0.id = rid
    · rw [← hfr, if_pos h0]
      exact ⟨rfl, rfl⟩
    · rw [← hfr, if_neg h0] at hid
      exact absurd hid h0
  · intro b hb hbid
    rcases List.mem_map.mp hb with ⟨b0, hb0, hfb⟩
    by_cases hbcond : b0.round_id = rid ∧ b0.status = .active
    · rw [← hfb, if_pos hbcond]
      intro habs
      simp at habs
    · rw [← hfb, if_neg hbcond] at hbid ⊢
      intro habs
      exact hbcond ⟨hbid, habs⟩
  · intro b hb hbid hba
    exact List.mem_map.mpr ⟨b, hb, by rw [if_pos ⟨hbid, hba⟩]⟩

/-- Witness for C7 at a one-round, one-bet state crashed at time 5. -/
theorem c7_crash_round_settlement_witness :
    ((CrashGameService.crash_round
        ⟨[⟨1, .active, 2, none, none⟩], [⟨7, 1, 10, .active, none, none, 0⟩], []⟩
        1 5).credits
      = (CrashGameService.CrashState.mk
          [⟨1, .active, 2, none, none⟩] [⟨7, 1, 10, .active, none, none, 0⟩] []).credits) ∧
    (∀ b ∈ (CrashGameService.crash_round
        ⟨[⟨1, .active, 2, none, none⟩], [⟨7, 1, 10, .active, none, none, 0⟩], []⟩
        1 5).bets, b.round_id = 1 → b.status ≠ .active) :=
  ⟨(c7_crash_round_settlement
      ⟨[⟨1, .active, 2, none, none⟩], [⟨7, 1, 10, .active, none, none, 0⟩], []⟩
      1 5).2.2.2.1,
   (c7_crash_round_settlement
      ⟨[⟨1, .active, 2, none, none⟩], [⟨7, 1, 10, .active, none, none, 0⟩], []⟩
      1 5).2.1⟩

/-- Floor to two decimal places over ℝ. -/
noncomputable def floor2R (x : ℝ) : ℝ := (⌊x * 100⌋ : ℝ) / 100

theorem floor2R_mono {a b : ℝ} (h : a ≤ b) : floor2R a ≤ floor2R b := by
  unfold floor2R
  have h1 : (⌊a * 100⌋ : ℤ) ≤ ⌊b * 100⌋ := Int.floor_le_floor (by linarith)
  have h2 : (⌊a * 100⌋ : ℝ) ≤ (⌊b * 100⌋ : ℝ) := by exact_mod_cast h1
  linarith

theorem floor2R_le (x : ℝ) : floor2R x ≤ x := by
  unfold floor2R
  have := Int.floor_le (x * 100)
  linarith

theorem floor2R_hundredths (n : ℤ) :
    floor2R ((n : ℝ) / 100) = (n : ℝ) / 100 := by
  unfold floor2R
  rw [div_mul_cancel₀]
  · simp
  · norm_num

namespace CrashGameService

/-- `CrashGameService.get_current_multiplier`, embedded from the source
with wall-clock instants as reals and `math.pow(1.06, elapsed)` idealised
as real exponentiation (the float computation and its string round-trip
through `Decimal(str(...))` are approximations of this value). -/
noncomputable def get_current_multiplier (status : RoundStatus)
    (started_at : Option ℝ) (crash_point : ℝ) (now : ℝ) : ℝ :=
  match status, started_at with
  | .active, some t0 =>
      let elapsed := now - t0
      let multiplier := (1.06 : ℝ) ^ elapsed
      let multiplier := if multiplier > crash_point then crash_point else multiplier
      floor2R multiplier
  | _, _ => 1

end CrashGameService

theorem if_gt_eq_min (x cp : ℝ) : (if x > cp then cp else x) = min cp x := by
  by_cases h : x > cp
  · rw [if_pos h, min_eq_left h.le]
  · rw [if_neg h, min_eq_right (not_lt.mp h)]

/-- C6: `get_current_multiplier` returns 1.00 whenever the round is not
Active (or has no start stamp); for an Active round it returns
min(crashPoint, floor-to-2-decimals of 1.06^elapsed); for a fixed Active
round it is non-decreasing in the current time and never exceeds the
round's crash point. -/
theorem c6_current_multiplier (t0 cp now now' : ℝ) (n : ℤ)
    (hcp : cp = (n : ℝ) / 100) (hle : now ≤ now') :
    (∀ st : CrashGameService.RoundStatus, ∀ ts : Option ℝ,
        (st ≠ .active ∨ ts = none) →
        CrashGameService.get_current_multiplier st ts cp now = 1) ∧
    CrashGameService.get_current_multiplier .active (some t0) cp now
        = min cp (floor2R ((1.06 : ℝ) ^ (now - t0))) ∧
    CrashGameService.get_current_multiplier .active (some t0) cp now
        ≤ CrashGameService.get_current_multiplier .active (some t0) cp now' ∧
    CrashGameService.get_current_multiplier .active (some t0) cp now ≤ cp := by
  have hfix : floor2R cp = cp := by rw [hcp]; exact floor2R_hundredths n
  refine ⟨?_, ?_, ?_, ?_⟩
  · intro st ts h
    cases st <;> cases ts <;> try rfl
    rcases h with h | h
    · exact absurd rfl h
    · exact absurd h (by simp)
  · show floor2R (if (1.06 : ℝ) ^ (now - t0) > cp then cp
        else (1.06 : ℝ) ^ (now - t0)) = _
    rw [if_gt_eq_min]
    by_cases h : (1.06 : ℝ) ^ (now - t0) > cp
    · rw [min_eq_left h.le, hfix,
        min_eq_left (hfix ▸ floor2R_mono h.le)]
    · rw [min_eq_right (not_lt.mp h),
        min_eq_right ((floor2R_le _).trans (not_lt.mp h))]
  · show floor2R (if (1.06 : ℝ) ^ (now - t0) > cp then cp
        else (1.06 : ℝ) ^ (now - t0))
      ≤ floor2R (if (1.06 : ℝ) ^ (now' - t0) > cp then cp
        else (1.06 : ℝ) ^ (now' - t0))
    rw [if_gt_eq_min, if_gt_eq_min]
    refine floor2R_mono (min_le_min le_rfl ?_)
    exact Real.rpow_le_rpow_of_exponent_le (by norm_num)
      (sub_le_sub_right hle t0)
  · show floor2R (if (1.06 : ℝ) ^ (now - t0) > cp then cp
        else (1.06 : ℝ) ^ (now - t0)) ≤ cp
    rw [if_gt_eq_min]
    exact (floor2R_le _).trans (min_le_left _ _)

/-- Witness for C6 at crash point 1.00, start time 0, times 0 and 1. -/
theorem c6_current_multiplier_witness :
    ((1:ℝ) = ((100:ℤ) : ℝ) / 100) ∧ ((0:ℝ) ≤ 1) ∧
    ((∀ st : CrashGameService.RoundStatus, ∀ ts : Option ℝ,
        (st ≠ .active ∨ ts = none) →
        CrashGameService.get_current_multiplier st ts 1 0 = 1) ∧
    CrashGameService.get_current_multiplier .active (some 0) 1 0
        = min 1 (floor2R ((1.06 : ℝ) ^ ((0:ℝ) - 0))) ∧
    CrashGameService.get_current_multiplier .active (some 0) 1 0
        ≤ CrashGameService.get_current_multiplier .active (some 0) 1 1 ∧
    CrashGameService.get_current_multiplier .active (some 0) 1 0 ≤ 1) :=
  ⟨by norm_num, by norm_num,
    c6_current_multiplier 0 1 0 1 100 (by norm_num) (by norm_num)⟩
